import Mathlib

/-!
Verification development for the act/section tagging and evaluation subsystem
of the fir-rag repository (`app/ipc_tagger.py`, `app/ipc_reference.py`,
`app/act_section_eval.py`, `tests/rag/validate_ipc_tagging.py`).

Modelling conventions (shallow embedding):
* Python strings are modelled as `List Char` (`Str`) of Unicode code points;
  `String` is used for finished tokens/tags so that Python's lexicographic
  string order is mirrored by an executable code-point comparison.
* Python regular-expression searching is modelled by an executable matcher
  over a first-order regex AST covering exactly the constructs the source
  patterns use (literals, `\s`, `\d`, `[_\s-]`, `?`, `*`, alternation and
  `\b`).  `re.IGNORECASE` together with the source's `text.lower()` is
  modelled by lower-casing the subject once and writing the ASCII letters of
  every pattern in lower case.  `\d`, `\w` and `\s` are modelled at ASCII
  precision (plus the Devanagari block for `\w`), which covers the alphabet
  the repository's data and patterns use.
* `sorted(set(xs))` is modelled by `sortedDedup`, an insertion sort that
  drops duplicates; Python's string order is code-point lexicographic,
  matched by `listLtB`.
* Fallible Python behaviour (attribute errors on non-string input, division
  by zero) is modelled with `Except`.
-/

namespace FirRag

abbrev Str := List Char

/-- Model of `\s` / `str.strip()` whitespace (ASCII precision). -/
def isWsChar (c : Char) : Bool := c.isWhitespace

/-- Model of `\d` (ASCII decimal digits, by code point). -/
def isDigitChar (c : Char) : Bool := 48 ≤ c.toNat && c.toNat ≤ 57

/-- ASCII letters `[A-Za-z]` (by code point). -/
def isAsciiLetter (c : Char) : Bool :=
  (65 ≤ c.toNat && c.toNat ≤ 90) || (97 ≤ c.toNat && c.toNat ≤ 122)

/-- Model of a regex word character for `\b`: ASCII alphanumerics, `_`,
and the word characters of the Devanagari block — its letters and digits,
but not its combining signs (Python's Unicode `\w` restricted to the
alphabet appearing in this repository's data). -/
def isWordChar (c : Char) : Bool :=
  c.isAlphanum || c == '_' ||
    (0x904 ≤ c.toNat && c.toNat ≤ 0x939) || c.toNat == 0x93D || c.toNat == 0x950 ||
    (0x958 ≤ c.toNat && c.toNat ≤ 0x961) || (0x966 ≤ c.toNat && c.toNat ≤ 0x96F) ||
    (0x971 ≤ c.toNat && c.toNat ≤ 0x97F)

/-- `text.lower()` (ASCII precision; Devanagari is unaffected). -/
def lowerStr (s : Str) : Str := s.map Char.toLower

/-- `str.strip()`. -/
def trimStr (s : Str) : Str :=
  ((s.dropWhile isWsChar).reverse.dropWhile isWsChar).reverse

/-- Code-point lexicographic comparison of char lists: Python's `<` on
strings. -/
def listLtB : Str → Str → Bool
  | [], [] => false
  | [], _ :: _ => true
  | _ :: _, [] => false
  | a :: as_, b :: bs => if a = b then listLtB as_ bs else decide (a.toNat < b.toNat)

/-- Python's `<` on strings. -/
def strLtB (a b : String) : Bool := listLtB a.data b.data

/-- Insert into a sorted duplicate-free list, keeping it sorted and
duplicate-free. -/
def sinsert (x : String) : List String → List String
  | [] => [x]
  | y :: ys => if strLtB x y then x :: y :: ys else if x = y then y :: ys else y :: sinsert x ys

/-- Model of Python's `sorted(set(xs))` for lists of strings. -/
def sortedDedup (l : List String) : List String := l.foldr sinsert []

/-- Strictly-ascending adjacency (sortedness certificate for
`sortedDedup` outputs). -/
def pairSorted : List String → Prop
  | [] => True
  | [_] => True
  | x :: y :: r => strLtB x y = true ∧ pairSorted (y :: r)

/-! ### The regex fragment used by the source patterns -/

/-- Character classes appearing in the source patterns. -/
inductive CharCls where
  | ws        -- `\s`
  | digit     -- `\d`
  | labelSep  -- `[_\s-]`
deriving DecidableEq, Repr

def ccMatch : CharCls → Char → Bool
  | .ws, c => isWsChar c
  | .digit, c => isDigitChar c
  | .labelSep, c => c == '_' || isWsChar c || c == '-'

/-- First-order regex AST (exactly the constructs the source patterns use). -/
inductive RE where
  | eps
  | lit (c : Char)
  | cls (k : CharCls)
  | seq (a b : RE)
  | alt (a b : RE)
  | star (a : RE)
  | bound     -- `\b`
deriving DecidableEq, Repr

def reOpt (a : RE) : RE := .alt a .eps

def wsStar : RE := .star (.cls .ws)

/-- Literal string as a regex. -/
def reStr (s : String) : RE := s.data.foldr (fun c r => RE.seq (.lit c) r) .eps

def reSeqs (l : List RE) : RE := l.foldr .seq .eps

def optIsWord : Option Char → Bool
  | none => false
  | some c => isWordChar c

def headIsWord : Str → Bool
  | [] => false
  | c :: _ => isWordChar c

/-- `\b` holds between the previous character (if any) and the rest. -/
def atBoundary (p : Option Char) (s : Str) : Bool := optIsWord p != headIsWord s

/-- Kleene iteration of a one-step matcher: all ways of running `f` zero or
more times, requiring progress at each iteration (a zero-width iteration
never changes whether `re.search` succeeds).  The fuel `|s| + 1` set by the
caller is then always sufficient. -/
def iterStar (f : Option Char → Str → List (Option Char × Str)) :
    Nat → Option Char → Str → List (Option Char × Str)
  | 0, prev, s => [(prev, s)]
  | fuel + 1, prev, s =>
      (prev, s) :: ((f prev s).filter (fun pr => pr.2.length < s.length)).flatMap
        fun pr => iterStar f fuel pr.1 pr.2

/-- All ways a regex can match a prefix of `s` (given the character just
before `s`, for `\b`); returns the character before each remaining suffix
together with the suffix. -/
def matchFrom : RE → Option Char → Str → List (Option Char × Str)
  | .eps, prev, s => [(prev, s)]
  | .lit _, _, [] => []
  | .lit c, _, d :: rest => if d = c then [(some d, rest)] else []
  | .cls _, _, [] => []
  | .cls k, _, d :: rest => if ccMatch k d then [(some d, rest)] else []
  | .seq a b, prev, s => (matchFrom a prev s).flatMap fun pr => matchFrom b pr.1 pr.2
  | .alt a b, prev, s => matchFrom a prev s ++ matchFrom b prev s
  | .star a, prev, s => iterStar (matchFrom a) (s.length + 1) prev s
  | .bound, prev, s => if atBoundary prev s then [(prev, s)] else []

/-- Does `r` match starting exactly at `s` (with `prev` the character
before)? -/
def matchesAt (r : RE) (prev : Option Char) (s : Str) : Bool :=
  !(matchFrom r prev s).isEmpty

/-- `re.search` scanning: try every start position, left to right. -/
def searchAux (r : RE) : Option Char → Str → Bool
  | prev, [] => matchesAt r prev []
  | prev, c :: rest => matchesAt r prev (c :: rest) || searchAux r (some c) rest

def reSearch (r : RE) (s : Str) : Bool := searchAux r none s

/-! ### Pattern tables from `app/ipc_tagger.py` -/

def patIpcWord : RE := reSeqs [.bound, reStr r"ipc", .bound]

def patIpcDotted : RE :=
  reSeqs [.bound, .lit 'i', reOpt (.lit '.'), wsStar, .lit 'p', reOpt (.lit '.'), wsStar,
    .lit 'c', reOpt (.lit '.'), .bound]

def patBhaDanSan : RE := reSeqs [reStr r"भा", wsStar, reStr r"दं", wsStar, reStr r"सं"]

def patIpcHindiFull : RE := reSeqs [reStr r"भारतीय", wsStar, reStr r"दंड", wsStar, reStr r"संहिता"]

def patIpcHindiFull2 : RE := reSeqs [reStr r"भारतीय", wsStar, reStr r"दण्ड", wsStar, reStr r"संहिता"]

def patIndianPenalCode : RE := reSeqs [reStr r"indian", wsStar, reStr r"penal", wsStar, reStr r"code"]

def patBnsWord : RE := reSeqs [.bound, reStr r"bns", .bound]

def patBnsHindiShort : RE := reSeqs [reStr r"बी", wsStar, reStr r"एन", wsStar, reStr r"एस"]

def patBnsHindiFull : RE := reSeqs [reStr r"भारतीय", wsStar, reStr r"न्याय", wsStar, reStr r"संहिता"]

def patBnsTranslit : RE := reSeqs [reStr r"bharatiya", wsStar, reStr r"nyaya", wsStar, reStr r"sanhita"]

def patElectricityHi : RE := reSeqs [reStr r"विद्युत", wsStar, reStr r"अधिनियम"]

def patElectricityEn : RE := reSeqs [reStr r"electricity", wsStar, reStr r"act"]

def patMmdrHi1 : RE := reSeqs [reStr r"खान", wsStar, reStr r"एवं", wsStar, reStr r"खनिज"]

def patMmdrHi2 : RE := reSeqs [reStr r"खान", wsStar, reStr r"और", wsStar, reStr r"खनिज"]

def patMmdrHi3 : RE := reSeqs [reStr r"खनिज", wsStar, .lit '(', reStr r"विनियमन"]

def patMmdrAbbrev : RE := reStr r"mmdr"

def patMinesMinerals : RE :=
  reSeqs [reStr r"mine", reOpt (.lit 's'), wsStar, reStr r"and", wsStar, reStr r"minerals"]

def patArmsHi : RE := reSeqs [reStr r"आयुध", wsStar, reStr r"अधिनियम"]

def patArmsEn : RE := reSeqs [reStr r"arms", wsStar, reStr r"act"]

def patDowryHi : RE := reSeqs [reStr r"दहेज", wsStar, reStr r"प्रतिषेध", wsStar, reStr r"अधिनियम"]

def patDowryEn : RE := reSeqs [reStr r"dowry", wsStar, reStr r"prohibition"]

def patPocsoHi : RE :=
  reSeqs [reStr r"लैंगिक", wsStar, reStr r"अपराधो", reOpt (.lit 'ं'), wsStar, reStr r"से", wsStar,
    reStr r"बालको", reOpt (.lit 'ं'), wsStar, reStr r"का", wsStar,
    reStr r"सर", reOpt (.lit 'ं'), reStr r"क्षण", wsStar, reStr r"अधिनियम"]

def patPocsoEn : RE := reStr r"pocso"

def patItHi : RE :=
  reSeqs [reStr r"सूचना", wsStar, reStr r"प्रौ", .lit 'द', reOpt (.lit '्'), reStr r"योगिकी"]

def patItEn : RE := reSeqs [reStr r"information", wsStar, reStr r"technology"]

def patItAct : RE := reSeqs [.bound, reStr r"it", wsStar, reStr r"act", .bound]

def patScstHi : RE :=
  reSeqs [reStr r"अनुसूचित", wsStar, reStr r"जाति", wsStar, reStr r"एवं", wsStar,
    reStr r"अनुसूचित", wsStar, reStr r"जनजाति"]

def patScstAbbrev : RE :=
  reSeqs [.bound, reStr r"sc", wsStar, reOpt (.lit '/'), wsStar, reStr r"st", .bound]

def patPcaHi : RE :=
  reSeqs [reStr r"पशुओ", reOpt (.lit 'ं'), wsStar, reStr r"के", wsStar, reStr r"प्रति", wsStar,
    reStr r"क्रूरता"]

def patPcaEn : RE :=
  reSeqs [reStr r"prevention", wsStar, reStr r"of", wsStar, reStr r"cruelty", wsStar,
    reStr r"to", wsStar, reStr r"animals"]

/-- `ACT_ALIAS_PATTERNS` (source order). -/
def ACT_ALIAS_PATTERNS : List (String × List RE) :=
  [(r"IPC_1860", [patIpcWord, patIpcDotted, patBhaDanSan, patIpcHindiFull, patIpcHindiFull2,
      patIndianPenalCode]),
   (r"BNS_2023", [patBnsWord, patBnsHindiShort, patBnsHindiFull, patBnsTranslit]),
   (r"ELECTRICITY_ACT_2003", [patElectricityHi, patElectricityEn]),
   (r"MMDR_ACT_1957", [patMmdrHi1, patMmdrHi2, patMmdrHi3, patMmdrAbbrev, patMinesMinerals]),
   (r"ARMS_ACT_1959", [patArmsHi, patArmsEn]),
   (r"DOWRY_PROHIBITION_ACT_1961", [patDowryHi, patDowryEn]),
   (r"POCSO_2012", [patPocsoHi, patPocsoEn]),
   (r"IT_ACT_2000", [patItHi, patItEn, patItAct]),
   (r"SCST_ACT_1989", [patScstHi, patScstAbbrev]),
   (r"PCA_1960", [patPcaHi, patPcaEn])]

/-- `SHORTFORM_PATTERNS`. -/
def SHORTFORM_PATTERNS : List (String × List RE) :=
  [(r"IPC_1860", [patIpcWord, patIpcDotted, patBhaDanSan]),
   (r"BNS_2023", [patBnsWord, patBnsHindiShort])]

/-- `ACT_LABELS_HI`. -/
def ACT_LABELS_HI : List (String × String) :=
  [(r"IPC_1860", r"भारतीय दंड संहिता (IPC 1860)"),
   (r"BNS_2023", r"भारतीय न्याय संहिता (BNS 2023)"),
   (r"ELECTRICITY_ACT_2003", r"विद्युत अधिनियम 2003"),
   (r"MMDR_ACT_1957", r"खान एवं खनिज अधिनियम 1957"),
   (r"ARMS_ACT_1959", r"आयुध अधिनियम 1959"),
   (r"DOWRY_PROHIBITION_ACT_1961", r"दहेज प्रतिषेध अधिनियम 1961"),
   (r"POCSO_2012", r"पॉक्सो अधिनियम 2012"),
   (r"IT_ACT_2000", r"सूचना प्रौद्योगिकी अधिनियम 2000"),
   (r"SCST_ACT_1989", r"SC/ST अत्याचार निवारण अधिनियम 1989"),
   (r"PCA_1960", r"पशु क्रूरता निवारण अधिनियम 1960")]

/-- The ten recognised act keys. -/
def ACT_KEYS : List String := ACT_ALIAS_PATTERNS.map Prod.fst

/-- `_match_act_tags`: the text is lower-cased once and every pattern is then
searched case-insensitively; the result is the list of act keys (in table
order) with at least one matching pattern. -/
def match_act_tags (s : Str) : List String :=
  (ACT_ALIAS_PATTERNS.filter (fun ap => ap.2.any (fun p => reSearch p (lowerStr s)))).map Prod.fst

/-- Look-up in `ACT_LABELS_HI` with the tag itself as default
(`ACT_LABELS_HI.get(tag, tag)`). -/
def act_label_hi (t : String) : String :=
  ((ACT_LABELS_HI.find? (fun p => p.1 == t)).map Prod.snd).getD t

/-! ### Section-code extraction (`_extract_section_codes`) -/

/-- Greedily take up to `n` leading digits. -/
def takeDigits : Str → Nat → (Str × Str)
  | s, 0 => ([], s)
  | [], _ + 1 => ([], [])
  | c :: rest, n + 1 =>
      if isDigitChar c then
        let p := takeDigits rest n
        (c :: p.1, p.2)
      else ([], c :: rest)

/-- Optional parenthesised sub-clause `(?:\(\d+\))?`: after the digits, a
literal `(`, one or more digits, then `)`. -/
def tryParen : Str → Option (Str × Str)
  | '(' :: rest =>
      let ds := rest.takeWhile isDigitChar
      match ds, rest.drop ds.length with
      | _ :: _, ')' :: r3 => some ('(' :: ds ++ [')'], r3)
      | _, _ => none
  | _ => none

/-- One token of `(\d{1,4}(?:\(\d+\))?)` starting exactly here: greedy 1–4
digits, then the optional parenthesised sub-clause. -/
def tokenAt (s : Str) : Option (String × Str) :=
  let p := takeDigits s 4
  if p.1.isEmpty then none
  else
    match tryParen p.2 with
    | some q => some (String.mk (p.1 ++ q.1), q.2)
    | none => some (String.mk p.1, p.2)

/-- `re.findall` over `_SECTION_CODE_RE`: non-overlapping scan, left to
right. -/
def bareScanF : Nat → Str → List String
  | 0, _ => []
  | _, [] => []
  | fuel + 1, c :: rest =>
      match tokenAt (c :: rest) with
      | some (t, r) => t :: bareScanF fuel r
      | none => bareScanF fuel rest

def bareScan (s : Str) : List String := bareScanF s.length s

/-- `re.findall` over `-\s*(\d{1,4}(?:\(\d+\))?)`: at each `-`, skip
whitespace and read a code; non-overlapping, left to right. -/
def hyphenScanF : Nat → Str → List String
  | 0, _ => []
  | _, [] => []
  | fuel + 1, c :: rest =>
      if c = '-' then
        match tokenAt (rest.dropWhile isWsChar) with
        | some (t, r) => t :: hyphenScanF fuel r
        | none => hyphenScanF fuel rest
      else hyphenScanF fuel rest

def hyphenScan (s : Str) : List String := hyphenScanF s.length s

def digitsToNat (l : Str) : Nat := l.foldl (fun a c => 10 * a + (c.toNat - 48)) 0

/-- `int(token.split("(")[0])`, `None` modelling a `ValueError`. -/
def parseIntPre (t : String) : Option Nat :=
  let ds := t.data.takeWhile (fun c => c ≠ '(')
  if ds ≠ [] ∧ ds.all isDigitChar then some (digitsToNat ds) else none

/-- One step of the fallback loop of `_extract_section_codes`: keep a token
unless its integer value (before any `(`) parses and lies in `[1800, 2099]`;
a parse failure skips the token (`except ValueError: continue`). -/
def fallbackStep (acc : List String) (token : String) : List String :=
  match parseIntPre token with
  | none => acc
  | some n => if 1800 ≤ n ∧ n ≤ 2099 then acc else acc ++ [token]

/-- The fallback loop of `_extract_section_codes`. -/
def fallbackKept (tokens : List String) : List String :=
  tokens.foldl fallbackStep []

/-- `_extract_section_codes`. -/
def extract_section_codes (s : Str) : List String :=
  let hy := hyphenScan s
  if hy ≠ [] then sortedDedup hy
  else sortedDedup (fallbackKept (bareScan s))

/-! ### `app/ipc_reference.py`: `normalize_section_token` -/

/-- `str(token).strip().upper().replace(" ", "").replace("(", "").replace(")", "")`. -/
def cleanupToken (s : Str) : Str :=
  ((trimStr s).map Char.toUpper).filter (fun c => ¬(c = ' ' ∨ c = '(' ∨ c = ')'))

/-- `SECTION_TOKEN_RE`: `^(\d{1,4}[A-Za-z]?)$`. -/
def sectionTokenShape (l : Str) : Bool :=
  decide (1 ≤ (l.takeWhile isDigitChar).length) && decide ((l.takeWhile isDigitChar).length ≤ 4) &&
    (match l.dropWhile isDigitChar with
     | [] => true
     | [c] => isAsciiLetter c
     | _ => false)

/-- `normalize_section_token` (string inputs; the `None` guard of the source
is subsumed by restricting the model to strings). -/
def normalize_section_token (t : String) : String :=
  let c := cleanupToken t.data
  if sectionTokenShape c then String.mk c else ""

/-- `_validate_ipc_sections`. -/
def validate_ipc_sections (ipcSections : List String) (ref : List String) : List String :=
  if ref = [] then ipcSections
  else
    sortedDedup (ipcSections.filter (fun sec =>
      let n := normalize_section_token sec
      n ≠ "" ∧ n ∈ ref))

/-! ### `tag_sections_line` -/

/-- `sections_line.split(",")` (keeps empty pieces, like Python). -/
def splitComma : Str → List Str
  | [] => [[]]
  | c :: rest =>
      let r := splitComma rest
      if c = ',' then [] :: r
      else
        match r with
        | [] => [[c]]
        | h :: t => (c :: h) :: t

/-- Fragment list: split on commas, strip, drop empties. -/
def fragmentsOf (s : Str) : List Str :=
  ((splitComma s).map trimStr).filter (fun p => p ≠ [])

/-- State of the fragment walk: the carried act context and the per-act
accumulated codes (`act_to_sections`, as an accumulation function; the final
output sorts and deduplicates). -/
structure LoopState where
  ctx : List String
  assign : String → List String

/-- One iteration of the fragment loop of `tag_sections_line`. -/
def stepFragment (actTags : List String) (st : LoopState) (frag : Str) : LoopState :=
  let matched := match_act_tags frag
  let ctx' := if matched ≠ [] then matched else st.ctx
  let codes := extract_section_codes frag
  if codes = [] then { ctx := ctx', assign := st.assign }
  else
    let targets := if matched ≠ [] then matched else if st.ctx ≠ [] then st.ctx else actTags
    { ctx := ctx',
      assign := fun a => if a ∈ targets then st.assign a ++ codes else st.assign a }

/-- The whole fragment walk. -/
def runFragments (actTags : List String) (frags : List Str) : LoopState :=
  frags.foldl (stepFragment actTags) { ctx := [], assign := fun _ => [] }

/-- Context-only evolution of the walk (`current_tags`). -/
def ctxStep (c : List String) (f : Str) : List String :=
  let m := match_act_tags f
  if m ≠ [] then m else c

/-- The target set a fragment's codes are assigned to
(`matched or current_tags or act_tags`), given the context carried into the
fragment. -/
def fragTarget (actTags : List String) (c : List String) (f : Str) : List String :=
  let m := match_act_tags f
  if m ≠ [] then m else if c ≠ [] then c else actTags

/-- `CitationTagSet`: the dict returned by `tag_sections_line`. -/
structure TagSet where
  act_tags : List String
  act_labels_hi : List String
  all_sections : List String
  ipc_sections : List String
  ipc_sections_raw : List String
  bns_sections : List String
  shortform_hits : List String
deriving DecidableEq, Repr

def emptyTagSet : TagSet :=
  { act_tags := [], act_labels_hi := [], all_sections := [], ipc_sections := [],
    ipc_sections_raw := [], bns_sections := [], shortform_hits := [] }

def IPC_KEY : String := r"IPC_1860"

def BNS_KEY : String := r"BNS_2023"

/-- `tag_sections_line` on a string input (the non-string cases are modelled
by `tag_sections_line_py` below).  `ref` is the reference IPC section set
(`reference_ipc_sections or set()`). -/
def tag_sections_line (s : Str) (ref : List String) : TagSet :=
  if s = [] then emptyTagSet
  else
    let actTags := match_act_tags s
    let allSections := extract_section_codes s
    let st := runFragments actTags (fragmentsOf s)
    let anyAssigned := ACT_KEYS.any (fun a => st.assign a ≠ [])
    let finalAssign : String → List String :=
      if allSections ≠ [] ∧ actTags ≠ [] ∧ ¬anyAssigned then
        fun a => if a ∈ actTags then allSections else st.assign a
      else st.assign
    let shortform :=
      (SHORTFORM_PATTERNS.filter (fun ap => ap.2.any (fun p => reSearch p (lowerStr s)))).map
        Prod.fst
    let orderedTags := sortedDedup actTags
    let raw := sortedDedup (finalAssign IPC_KEY)
    { act_tags := orderedTags,
      act_labels_hi := orderedTags.map act_label_hi,
      all_sections := sortedDedup allSections,
      ipc_sections := validate_ipc_sections raw ref,
      ipc_sections_raw := raw,
      bns_sections := sortedDedup (finalAssign BNS_KEY),
      shortform_hits := sortedDedup shortform }

/-! ### Python-value wrapper (falsiness / attribute errors) -/

/-- The Python values relevant to the duck-typed entry points. -/
inductive PyVal where
  | vnone
  | vstr (s : String)
  | vint (n : Int)
  | vlist (len : Nat)
  | vbool (b : Bool)
deriving DecidableEq, Repr

def pyTruthy : PyVal → Bool
  | .vnone => false
  | .vstr s => s ≠ ""
  | .vint n => n ≠ 0
  | .vlist len => len ≠ 0
  | .vbool b => b

inductive PyErr where
  | attributeError
deriving DecidableEq, Repr

/-- `tag_sections_line` on an arbitrary Python value: the source only guards
falsiness (`if not sections_line`); a truthy non-string then reaches
`sections_line.lower()` inside `_match_act_tags` and raises
`AttributeError`. -/
def tag_sections_line_py (v : PyVal) (ref : List String) : Except PyErr TagSet :=
  if pyTruthy v = false then .ok emptyTagSet
  else
    match v with
    | .vstr s => .ok (tag_sections_line s.data ref)
    | _ => .error .attributeError

/-! ### `extract_sections_line` -/

/-- At a line start, try `^\s*Sections:\s*(.*)$` (the `\s*` runs are maximal
because neither can be followed by a character they also match); returns the
stripped capture. -/
def trySectionsAt (s : Str) : Option Str :=
  let afterWs := s.dropWhile isWsChar
  if (String.mk (afterWs.take 9)) = r"Sections:" then
    some (trimStr (((afterWs.drop 9).dropWhile isWsChar).takeWhile (fun c => c ≠ '\n')))
  else none

/-- Scan for the first line start at which the `Sections:` pattern matches
(`^` with `re.MULTILINE` anchors only at the string start or after a
newline). -/
def scanSectionsAux : Bool → Str → Option Str
  | _, [] => none
  | atStart, c :: rest =>
      if atStart then
        match trySectionsAt (c :: rest) with
        | some cap => some cap
        | none => scanSectionsAux (c = '\n') rest
      else scanSectionsAux (c = '\n') rest

/-- `extract_sections_line` on a string input (non-strings return `""` via
the `isinstance` guard in the source). -/
def extract_sections_line (t : String) : String :=
  match scanSectionsAux true t.data with
  | some cap => String.mk cap
  | none => ""

/-! ### `app/act_section_eval.py` -/

/-- The metadata context row consumed by `get_expected_from_context`
(missing fields are modelled by their falsy defaults). -/
structure ContextRow where
  text : String
  sections_line : String
  act_tags : List String
  ipc_sections : List String
  bns_sections : List String
deriving Repr

/-- The dict returned by `get_expected_from_context`. -/
structure Expected where
  sections_line : String
  act_tags : List String
  all_sections : List String
deriving DecidableEq, Repr

def get_expected_from_context (row : ContextRow) : Expected :=
  let sl := if row.sections_line ≠ "" then row.sections_line else extract_sections_line row.text
  let tags := tag_sections_line sl.data []
  let expActTags := if row.act_tags ≠ [] then row.act_tags else tags.act_tags
  let expSections :=
    if tags.all_sections ≠ [] then tags.all_sections
    else sortedDedup (row.ipc_sections ++ row.bns_sections)
  { sections_line := sl,
    act_tags := sortedDedup expActTags,
    all_sections := sortedDedup expSections }

/-- `EvaluationResult`. -/
structure EvalResult where
  accuracy : Nat
  section_accuracy : Option Nat
  act_tag_accuracy : Option Nat
  predicted_act_tags : List String
  predicted_all_sections : List String
  expected : Expected
deriving Repr

/-- `evaluate_prediction`.  Python compares the four sets with `==`; here
both sides are in the canonical sorted duplicate-free form, whose equality
coincides with set equality. -/
def evaluate_prediction (predictedText : String) (row : ContextRow) : EvalResult :=
  let predictedTags := tag_sections_line predictedText.data []
  let expected := get_expected_from_context row
  let ps := sortedDedup predictedTags.all_sections
  let es := sortedDedup expected.all_sections
  let pa := sortedDedup predictedTags.act_tags
  let ea := sortedDedup expected.act_tags
  let sacc : Option Nat := if es ≠ [] then some (if ps = es then 1 else 0) else none
  let aacc : Option Nat := if ea ≠ [] then some (if pa = ea then 1 else 0) else none
  let acc : Nat :=
    match sacc with
    | some v => v
    | none =>
        match aacc with
        | some v => v
        | none => 0
  { accuracy := acc, section_accuracy := sacc, act_tag_accuracy := aacc,
    predicted_act_tags := pa, predicted_all_sections := ps, expected := expected }

/-! ### `extract_predicted_act_section_text` -/

/-- Case-insensitive literal match: if (the lower-casing of) `s` starts with
the lower-case needle `p`, return the rest. -/
def ciStripQ : Str → Str → Option Str
  | [], s => some s
  | _, [] => none
  | c :: p, d :: s => if Char.toLower d = c then ciStripQ p s else none

/-- `[_\s-]*` (maximal munch; sound because the class never overlaps the
letter that must follow). -/
def sepDrop (s : Str) : Str := s.dropWhile (fun c => c == '_' || isWsChar c || c == '-')

/-- `\s*(.+)` after the colon, with Python's backtracking: the greedy
whitespace run backs off just enough for `.+` to take at least one
non-newline character; the capture stops at the next newline.  When the rest
is all whitespace the capture degenerates to the last non-newline whitespace
character (stripped to `""` by the caller); when it is empty or all
newlines, the match fails. -/
def capAfterColon (u : Str) : Option Str :=
  let w := u.dropWhile isWsChar
  match w with
  | _ :: _ => some (w.takeWhile (fun c => c ≠ '\n'))
  | [] =>
      match u.reverse.dropWhile (fun c => c = '\n') with
      | [] => none
      | c :: _ => some [c]

/-- `_PREDICTED_LINE_RE` matched at exactly this position:
`Predicted[_\s-]*Act[_\s-]*Section\s*:\s*(.+)` (case-insensitive). -/
def tryPredAt (s : Str) : Option Str :=
  match ciStripQ (r"predicted").data s with
  | none => none
  | some r1 =>
      match ciStripQ (r"act").data (sepDrop r1) with
      | none => none
      | some r2 =>
          match ciStripQ (r"section").data (sepDrop r2) with
          | none => none
          | some r3 =>
              match r3.dropWhile isWsChar with
              | ':' :: r5 => capAfterColon r5
              | _ => none

/-- `re.search` for the predicted-line pattern: first matching start
position wins. -/
def predSearchAux : Str → Option Str
  | [] => none
  | c :: rest =>
      match tryPredAt (c :: rest) with
      | some cap => some cap
      | none => predSearchAux rest

/-- `str.splitlines()` restricted to `\n`, `\r` and `\r\n` breaks. -/
def splitLinesF : Nat → Str → List Str
  | 0, _ => []
  | _, [] => []
  | fuel + 1, s =>
      let line := s.takeWhile (fun c => c ≠ '\n' ∧ c ≠ '\r')
      match s.drop line.length with
      | [] => [line]
      | '\r' :: '\n' :: r => line :: splitLinesF fuel r
      | _ :: r => line :: splitLinesF fuel r

def splitLines (s : Str) : List Str := splitLinesF s.length s

/-- `line.strip(" -*\t")`. -/
def stripBullets (s : Str) : Str :=
  let isB : Char → Bool := fun c => c == ' ' || c == '-' || c == '*' || c == '\t'
  ((s.dropWhile isB).reverse.dropWhile isB).reverse

/-- The spec's description of the fallback strip — "the first non-empty
line with *leading* bullet/dash/asterisk/tab characters stripped" — which
removes the characters from the left end only.  The source's
`line.strip(" -*\t")` strips both ends; this definition exists to exhibit
that divergence. -/
def stripBulletsLeadingSpec (s : Str) : Str :=
  s.dropWhile (fun c => c == ' ' || c == '-' || c == '*' || c == '\t')

/-- The fallback loop: first line whose bullet-stripped form is
non-empty. -/
def firstCleanedLine : List Str → Str
  | [] => []
  | l :: rest =>
      let c := stripBullets l
      if c ≠ [] then c else firstCleanedLine rest

/-- `extract_predicted_act_section_text` on a string. -/
def extract_predicted_text_str (s : Str) : String :=
  match predSearchAux s with
  | some cap => String.mk (trimStr cap)
  | none => String.mk (firstCleanedLine (splitLines s))

/-- `extract_predicted_act_section_text` (non-strings return `""` via the
`isinstance` guard). -/
def extract_predicted_act_section_text : PyVal → String
  | .vstr s => extract_predicted_text_str s.data
  | _ => ""

/-! ### `tests/rag/validate_ipc_tagging.py` -/

def IPC_GT_PATTERNS : List RE :=
  [patIpcWord, patIpcDotted, patBhaDanSan, patIpcHindiFull, patIpcHindiFull2]

def BNS_GT_PATTERNS : List RE := [patBnsWord, patBnsHindiShort, patBnsHindiFull]

/-- `_contains_any` (case-insensitive search of each pattern). -/
def containsAny (s : Str) (pats : List RE) : Bool :=
  pats.any (fun p => reSearch p (lowerStr s))

/-- A metadata row (`row.get("text", "")`, `row.get("case_id", "")`). -/
structure MetaRow where
  case_id : String
  text : String
deriving Repr

/-- `tag_case_record` (the tag fields; the echoed `case_id`/`sections_line`
entries do not feed the harness tallies). -/
def tag_case_record (row : MetaRow) (ref : List String) : TagSet :=
  tag_sections_line (extract_sections_line row.text).data ref

/-- The eight confusion counters of `validate_ipc_tags`. -/
structure Tally where
  ipc_tp : Nat
  ipc_fp : Nat
  ipc_fn : Nat
  ipc_tn : Nat
  bns_tp : Nat
  bns_fp : Nat
  bns_fn : Nat
  bns_tn : Nat
deriving DecidableEq, Repr

def tally0 : Tally := ⟨0, 0, 0, 0, 0, 0, 0, 0⟩

/-- One iteration of the per-record loop of `validate_ipc_tags` (the
confusion-matrix part). -/
def stepRow (ref : List String) (t : Tally) (row : MetaRow) : Tally :=
  let tags := tag_case_record row ref
  let sl := (extract_sections_line row.text).data
  let predIpc := IPC_KEY ∈ tags.act_tags
  let predBns := BNS_KEY ∈ tags.act_tags
  let gtIpc := containsAny sl IPC_GT_PATTERNS
  let gtBns := containsAny sl BNS_GT_PATTERNS
  let t1 :=
    if gtIpc ∧ predIpc then { t with ipc_tp := t.ipc_tp + 1 }
    else if gtIpc ∧ ¬predIpc then { t with ipc_fn := t.ipc_fn + 1 }
    else if ¬gtIpc ∧ predIpc then { t with ipc_fp := t.ipc_fp + 1 }
    else { t with ipc_tn := t.ipc_tn + 1 }
  if gtBns ∧ predBns then { t1 with bns_tp := t1.bns_tp + 1 }
  else if gtBns ∧ ¬predBns then { t1 with bns_fn := t1.bns_fn + 1 }
  else if ¬gtBns ∧ predBns then { t1 with bns_fp := t1.bns_fp + 1 }
  else { t1 with bns_tn := t1.bns_tn + 1 }

/-- Python's `a / b` on rationals, raising on a zero denominator. -/
def pydiv (a b : ℚ) : Except Unit ℚ := if b = 0 then .error () else .ok (a / b)

/-- `_safe_div`: `(a / b) if b else 0.0`. -/
def safe_div (a b : ℚ) : Except Unit ℚ := if b ≠ 0 then pydiv a b else .ok 0

/-- One act family's block of the emitted report. -/
structure DetectionReport where
  tp : Nat
  fp : Nat
  fndet : Nat
  tn : Nat
  precision : ℚ
  recallQ : ℚ
  f1 : ℚ
deriving Repr

/-- The value `mkDetection` produces when no division faults. -/
def detectionOf (tp fp fndet tn : Nat) : DetectionReport :=
  { tp := tp, fp := fp, fndet := fndet, tn := tn,
    precision := if ((tp : ℚ) + fp) = 0 then 0 else (tp : ℚ) / ((tp : ℚ) + fp),
    recallQ := if ((tp : ℚ) + fndet) = 0 then 0 else (tp : ℚ) / ((tp : ℚ) + fndet),
    f1 := if (2 * (tp : ℚ) + fp + fndet) = 0 then 0
      else (2 * (tp : ℚ)) / (2 * (tp : ℚ) + fp + fndet) }

/-- Build one `*_detection` block as the source does. -/
def mkDetection (tp fp fndet tn : Nat) : Except Unit DetectionReport := do
  let p ← safe_div (tp : ℚ) ((tp : ℚ) + (fp : ℚ))
  let r ← safe_div (tp : ℚ) ((tp : ℚ) + (fndet : ℚ))
  let f ← safe_div (2 * (tp : ℚ)) (2 * (tp : ℚ) + (fp : ℚ) + (fndet : ℚ))
  pure { tp := tp, fp := fp, fndet := fndet, tn := tn, precision := p, recallQ := r, f1 := f }

structure ValidationReport where
  total_cases : Nat
  ipc_detection : DetectionReport
  bns_detection : DetectionReport
deriving Repr

/-- `validate_ipc_tags` (the confusion-matrix and metric part of the emitted
report). -/
def validate_ipc_tags (rows : List MetaRow) (ref : List String) :
    Except Unit ValidationReport := do
  let t := rows.foldl (stepRow ref) tally0
  let ipc ← mkDetection t.ipc_tp t.ipc_fp t.ipc_fn t.ipc_tn
  let bns ← mkDetection t.bns_tp t.bns_fp t.bns_fn t.bns_tn
  pure { total_cases := rows.length, ipc_detection := ipc, bns_detection := bns }

/-! ### Concrete inputs from the specification's examples -/

/-- The round-trip citation string. -/
def roundTripInput : String := r"भारतीय दंड संहिता-379, भारतीय दंड संहिता-411"

/-- The year-exclusion fallback string. -/
def yearInput : String := r"अधिनियम 1860 धारा 302"

/-- The labelled model response. -/
def predInput : String := "Some explanation\nPredicted_Act_Section: IPC-379, IPC-411\n"

/-- A model response with no labelled line whose first line ends in a
trailing bullet character. -/
def predTrailInput : String := "item -\n"

/-- Equality of lists viewed as sets (Python's `==` on `set`s). -/
def sameSet (a b : List String) : Prop := ∀ x, x ∈ a ↔ x ∈ b

/-! ## Theorems -/

/-! ### The canonical sorted duplicate-free form -/

theorem listLtB_irrefl : ∀ l : Str, listLtB l l = false
  | [] => rfl
  | _ :: as_ => by simp [listLtB, listLtB_irrefl as_]

theorem charEqOfToNatEq {a b : Char} (h : a.toNat = b.toNat) : a = b := by
  have h2 := congrArg Char.ofNat h
  rwa [Char.ofNat_toNat, Char.ofNat_toNat] at h2

theorem listLtB_asymm : ∀ a b : Str, listLtB a b = true → listLtB b a = false
  | [], [], h => by simp [listLtB] at h
  | [], _ :: _, _ => by simp [listLtB]
  | _ :: _, [], h => by simp [listLtB] at h
  | a :: as_, b :: bs, h => by
      by_cases hab : a = b
      · subst hab
        simp only [listLtB, if_pos rfl] at h ⊢
        exact listLtB_asymm as_ bs h
      · have hba : ¬b = a := fun e => hab e.symm
        simp only [listLtB, if_neg hab, if_neg hba, decide_eq_true_eq] at h ⊢
        simp only [decide_eq_false_iff_not]
        omega

theorem listLtB_conn : ∀ a b : Str, listLtB a b = false → listLtB b a = false → a = b
  | [], [], _, _ => rfl
  | [], _ :: _, h, _ => by simp [listLtB] at h
  | _ :: _, [], _, h2 => by simp [listLtB] at h2
  | a :: as_, b :: bs, h, h2 => by
      by_cases hab : a = b
      · subst hab
        simp only [listLtB, if_pos rfl] at h h2
        rw [listLtB_conn as_ bs h h2]
      · have hba : ¬b = a := fun e => hab e.symm
        simp only [listLtB, if_neg hab, if_neg hba, decide_eq_false_iff_not] at h h2
        exact absurd (charEqOfToNatEq (by omega)) hab

theorem listLtB_cons (a b : Char) (as_ bs : Str) :
    listLtB (a :: as_) (b :: bs) =
      if a = b then listLtB as_ bs else decide (a.toNat < b.toNat) := rfl

theorem listLtB_trans : ∀ a b c : Str, listLtB a b = true → listLtB b c = true → listLtB a c = true
  | [], [], _, h, _ => by simp [listLtB] at h
  | [], _ :: _, [], _, h2 => by simp [listLtB] at h2
  | [], _ :: _, _ :: _, _, _ => by simp [listLtB]
  | _ :: _, [], _, h, _ => by simp [listLtB] at h
  | _ :: _, _ :: _, [], _, h2 => by simp [listLtB] at h2
  | a :: as_, b :: bs, c :: cs, h, h2 => by
      rw [listLtB_cons] at h h2 ⊢
      by_cases hab : a = b
      · subst hab
        rw [if_pos rfl] at h
        by_cases hac : a = c
        · subst hac
          rw [if_pos rfl] at h2 ⊢
          exact listLtB_trans as_ bs cs h h2
        · rw [if_neg hac] at h2 ⊢
          exact h2
      · rw [if_neg hab, decide_eq_true_eq] at h
        by_cases hbc : b = c
        · subst hbc
          rw [if_neg hab, decide_eq_true_eq]
          exact h
        · rw [if_neg hbc, decide_eq_true_eq] at h2
          have hac : ¬a = c := by
            intro e
            subst e
            omega
          rw [if_neg hac, decide_eq_true_eq]
          omega

theorem strLtB_irrefl (s : String) : strLtB s s = false := listLtB_irrefl s.data

theorem strLtB_asymm {a b : String} (h : strLtB a b = true) : strLtB b a = false :=
  listLtB_asymm a.data b.data h

theorem strLtB_conn {a b : String} (h : strLtB a b = false) (h2 : strLtB b a = false) : a = b := by
  have h3 := listLtB_conn a.data b.data h h2
  cases a
  cases b
  exact congrArg String.mk h3

theorem strLtB_trans {a b c : String} (h : strLtB a b = true) (h2 : strLtB b c = true) :
    strLtB a c = true :=
  listLtB_trans a.data b.data c.data h h2

theorem strLtB_total {a b : String} (h : ¬a = b) : strLtB a b = true ∨ strLtB b a = true := by
  cases hab : strLtB a b
  · cases hba : strLtB b a
    · exact absurd (strLtB_conn hab hba) h
    · exact Or.inr rfl
  · exact Or.inl rfl

theorem pairSorted_tail : ∀ {x : String} {l : List String}, pairSorted (x :: l) → pairSorted l
  | _, [], _ => trivial
  | _, _ :: _, h => h.2

theorem pairSorted_head_lt :
    ∀ (l : List String) (x z : String), pairSorted (x :: l) → z ∈ l → strLtB x z = true := by
  intro l
  induction l with
  | nil => intro x z _ hz; simp at hz
  | cons y ys ih =>
    intro x z h hz
    rcases List.mem_cons.mp hz with rfl | hz2
    · exact h.1
    · exact strLtB_trans h.1 (ih y z h.2 hz2)

theorem pairSorted_cons_of {y : String} {l : List String}
    (hall : ∀ z ∈ l, strLtB y z = true) (h : pairSorted l) : pairSorted (y :: l) := by
  cases l with
  | nil => trivial
  | cons z zs => exact ⟨hall z (List.mem_cons_self z zs), h⟩

theorem mem_sinsert : ∀ (x : String) (l : List String) (z : String),
    z ∈ sinsert x l ↔ z = x ∨ z ∈ l := by
  intro x l
  induction l with
  | nil => intro z; simp [sinsert]
  | cons y ys ih =>
    intro z
    simp only [sinsert]
    split
    · simp [List.mem_cons]
    · split
      · rename_i heq
        subst heq
        simp only [List.mem_cons]
        tauto
      · simp only [List.mem_cons, ih z]
        tauto

theorem pairSorted_sinsert :
    ∀ (l : List String) (x : String), pairSorted l → pairSorted (sinsert x l) := by
  intro l
  induction l with
  | nil => intro x _; simp [sinsert]; trivial
  | cons y ys ih =>
    intro x h
    simp only [sinsert]
    split
    · exact ⟨‹_›, h⟩
    · split
      · exact h
      · rename_i hlt hne
        have hyx : strLtB y x = true := by
          rcases strLtB_total (fun e => hne e.symm) with h1 | h1
          · exact h1
          · exact absurd h1 (by simpa using hlt)
        refine pairSorted_cons_of ?_ (ih x (pairSorted_tail h))
        intro z hz
        rcases (mem_sinsert x ys z).mp hz with rfl | hz2
        · exact hyx
        · exact pairSorted_head_lt ys y z h hz2

theorem sortedDedup_cons (a : String) (l : List String) :
    sortedDedup (a :: l) = sinsert a (sortedDedup l) := rfl

theorem sd_mem : ∀ (l : List String) (z : String), z ∈ sortedDedup l ↔ z ∈ l := by
  intro l
  induction l with
  | nil => intro z; simp [sortedDedup]
  | cons a as_ ih =>
    intro z
    rw [sortedDedup_cons, mem_sinsert, ih z]
    simp [List.mem_cons]

theorem sd_sorted : ∀ l : List String, pairSorted (sortedDedup l) := by
  intro l
  induction l with
  | nil => trivial
  | cons a as_ ih => exact pairSorted_sinsert _ a ih

theorem sorted_canonical :
    ∀ l m : List String, pairSorted l → pairSorted m → (∀ z, z ∈ l ↔ z ∈ m) → l = m := by
  intro l
  induction l with
  | nil =>
    intro m _ _ hmem
    cases m with
    | nil => rfl
    | cons y ys =>
      have := (hmem y).mpr (List.mem_cons_self y ys)
      simp at this
  | cons x xs ih =>
    intro m hl hm hmem
    cases m with
    | nil =>
      have := (hmem x).mp (List.mem_cons_self x xs)
      simp at this
    | cons y ys =>
      have hxy : x = y := by
        rcases List.mem_cons.mp ((hmem x).mp (List.mem_cons_self x xs)) with rfl | hxys
        · rfl
        · rcases List.mem_cons.mp ((hmem y).mpr (List.mem_cons_self y ys)) with rfl | hyxs
          · rfl
          · have h1 := pairSorted_head_lt ys y x hm hxys
            have h2 := pairSorted_head_lt xs x y hl hyxs
            rw [strLtB_asymm h1] at h2
            cases h2
      subst hxy
      have htail : ∀ z, z ∈ xs ↔ z ∈ ys := by
        intro z
        constructor
        · intro hz
          rcases List.mem_cons.mp ((hmem z).mp (List.mem_cons_of_mem x hz)) with rfl | h2
          · have := pairSorted_head_lt xs z z hl hz
            rw [strLtB_irrefl] at this
            cases this
          · exact h2
        · intro hz
          rcases List.mem_cons.mp ((hmem z).mpr (List.mem_cons_of_mem x hz)) with rfl | h2
          · have := pairSorted_head_lt ys z z hm hz
            rw [strLtB_irrefl] at this
            cases this
          · exact h2
      rw [ih ys (pairSorted_tail hl) (pairSorted_tail hm) htail]

theorem sd_eq_iff {a b : List String} : sortedDedup a = sortedDedup b ↔ sameSet a b := by
  constructor
  · intro h z
    rw [← sd_mem a z, ← sd_mem b z, h]
  · intro h
    exact sorted_canonical _ _ (sd_sorted a) (sd_sorted b) fun z => by
      rw [sd_mem a z, sd_mem b z]; exact h z

theorem sd_idem (l : List String) : sortedDedup (sortedDedup l) = sortedDedup l :=
  sorted_canonical _ _ (sd_sorted _) (sd_sorted _) fun z => by rw [sd_mem, sd_mem l z]

theorem sd_sd_eq_iff {a b : List String} : sortedDedup a = b → (sameSet a b ↔ True) := by
  intro h
  simp only [iff_true]
  intro z
  rw [← h, sd_mem]

/-! ### The year-exclusion fallback loop -/

theorem foldl_fallbackStep_mem :
    ∀ (l acc : List String) (t : String),
      t ∈ l.foldl fallbackStep acc ↔
        t ∈ acc ∨ (t ∈ l ∧ ∃ n, parseIntPre t = some n ∧ ¬(1800 ≤ n ∧ n ≤ 2099)) := by
  intro l
  induction l with
  | nil => intro acc t; simp
  | cons tok rest ih =>
    intro acc t
    rw [List.foldl_cons, ih]
    have hstep : t ∈ fallbackStep acc tok ↔
        t ∈ acc ∨ (t = tok ∧ ∃ n, parseIntPre t = some n ∧ ¬(1800 ≤ n ∧ n ≤ 2099)) := by
      cases hp : parseIntPre tok with
      | none =>
        have hrw : fallbackStep acc tok = acc := by
          unfold fallbackStep
          rw [hp]
        rw [hrw]
        constructor
        · exact Or.inl
        · rintro (h | ⟨rfl, n, hn, _⟩)
          · exact h
          · rw [hp] at hn; cases hn
      | some n =>
        have hrw : fallbackStep acc tok =
            if 1800 ≤ n ∧ n ≤ 2099 then acc else acc ++ [tok] := by
          unfold fallbackStep
          rw [hp]
        rw [hrw]
        by_cases hy : 1800 ≤ n ∧ n ≤ 2099
        · rw [if_pos hy]
          constructor
          · exact Or.inl
          · rintro (h | ⟨rfl, m, hm, hmy⟩)
            · exact h
            · rw [hp] at hm
              cases hm
              exact absurd hy hmy
        · rw [if_neg hy]
          constructor
          · intro h
            rcases List.mem_append.mp h with h | h
            · exact Or.inl h
            · rcases List.mem_singleton.mp h with rfl
              exact Or.inr ⟨rfl, n, hp, hy⟩
          · rintro (h | ⟨rfl, _, _, _⟩)
            · exact List.mem_append_left _ h
            · exact List.mem_append_right _ (List.mem_singleton.mpr rfl)
    rw [hstep]
    simp only [List.mem_cons]
    constructor
    · rintro ((h | ⟨rfl, hn⟩) | ⟨hmem, hn⟩)
      · exact Or.inl h
      · exact Or.inr ⟨Or.inl rfl, hn⟩
      · exact Or.inr ⟨Or.inr hmem, hn⟩
    · rintro (h | ⟨(rfl | hmem), hn⟩)
      · exact Or.inl (Or.inl h)
      · exact Or.inl (Or.inr ⟨rfl, hn⟩)
      · exact Or.inr ⟨hmem, hn⟩

theorem fallbackKept_mem (tokens : List String) (t : String) :
    t ∈ fallbackKept tokens ↔
      t ∈ tokens ∧ ∃ n, parseIntPre t = some n ∧ ¬(1800 ≤ n ∧ n ≤ 2099) := by
  rw [fallbackKept, foldl_fallbackStep_mem]
  simp

/-! ### The prediction-extractor fallback loop -/

theorem firstCleanedLine_all_empty :
    ∀ ls : List Str, (∀ l ∈ ls, stripBullets l = []) → firstCleanedLine ls = [] := by
  intro ls
  induction ls with
  | nil => intro _; rfl
  | cons l rest ih =>
    intro h
    rw [firstCleanedLine]
    rw [h l (List.mem_cons_self l rest)]
    simpa using ih fun l2 hl2 => h l2 (List.mem_cons_of_mem l hl2)

theorem firstCleanedLine_found :
    ∀ (pre : List Str) (l : Str) (post : List Str),
      (∀ l2 ∈ pre, stripBullets l2 = []) → stripBullets l ≠ [] →
      firstCleanedLine (pre ++ l :: post) = stripBullets l := by
  intro pre
  induction pre with
  | nil =>
    intro l post _ hl
    rw [List.nil_append, firstCleanedLine, if_pos hl]
  | cons p rest ih =>
    intro l post hpre hl
    rw [List.cons_append, firstCleanedLine, hpre p (List.mem_cons_self p rest)]
    simpa using ih l post (fun l2 hl2 => hpre l2 (List.mem_cons_of_mem p hl2)) hl

/-! ### Safe division and the metric block -/

theorem safe_div_ok (a b : ℚ) : safe_div a b = .ok (if b = 0 then 0 else a / b) := by
  unfold safe_div pydiv
  by_cases h : b = 0 <;> simp [h]

theorem mkDetection_ok (tp fp fnn tn : Nat) :
    mkDetection tp fp fnn tn = .ok (detectionOf tp fp fnn tn) := by
  unfold mkDetection detectionOf
  rw [safe_div_ok, safe_div_ok, safe_div_ok]
  rfl

theorem natCastAddEqZero (a b : Nat) : ((a : ℚ) + (b : ℚ) = 0) ↔ a + b = 0 := by
  norm_cast

theorem natCastF1EqZero (a b c : Nat) :
    (2 * (a : ℚ) + (b : ℚ) + (c : ℚ) = 0) ↔ 2 * a + b + c = 0 := by
  norm_cast

theorem validate_ipc_tags_ok (rows : List MetaRow) (ref : List String) :
    validate_ipc_tags rows ref =
      .ok { total_cases := rows.length,
            ipc_detection := detectionOf (rows.foldl (stepRow ref) tally0).ipc_tp
              (rows.foldl (stepRow ref) tally0).ipc_fp (rows.foldl (stepRow ref) tally0).ipc_fn
              (rows.foldl (stepRow ref) tally0).ipc_tn,
            bns_detection := detectionOf (rows.foldl (stepRow ref) tally0).bns_tp
              (rows.foldl (stepRow ref) tally0).bns_fp (rows.foldl (stepRow ref) tally0).bns_fn
              (rows.foldl (stepRow ref) tally0).bns_tn } := by
  simp only [validate_ipc_tags]
  rw [mkDetection_ok, mkDetection_ok]
  rfl

/-! ### Tally bookkeeping of the batch harness -/

theorem stepRow_sums (ref : List String) (t : Tally) (row : MetaRow) :
    ((stepRow ref t row).ipc_tp + (stepRow ref t row).ipc_fp + (stepRow ref t row).ipc_fn +
        (stepRow ref t row).ipc_tn =
      t.ipc_tp + t.ipc_fp + t.ipc_fn + t.ipc_tn + 1) ∧
    ((stepRow ref t row).bns_tp + (stepRow ref t row).bns_fp + (stepRow ref t row).bns_fn +
        (stepRow ref t row).bns_tn =
      t.bns_tp + t.bns_fp + t.bns_fn + t.bns_tn + 1) := by
  simp only [stepRow]
  split_ifs <;> simp <;> omega

theorem foldl_stepRow_sums :
    ∀ (rows : List MetaRow) (ref : List String) (t : Tally),
      ((rows.foldl (stepRow ref) t).ipc_tp + (rows.foldl (stepRow ref) t).ipc_fp +
          (rows.foldl (stepRow ref) t).ipc_fn + (rows.foldl (stepRow ref) t).ipc_tn =
        t.ipc_tp + t.ipc_fp + t.ipc_fn + t.ipc_tn + rows.length) ∧
      ((rows.foldl (stepRow ref) t).bns_tp + (rows.foldl (stepRow ref) t).bns_fp +
          (rows.foldl (stepRow ref) t).bns_fn + (rows.foldl (stepRow ref) t).bns_tn =
        t.bns_tp + t.bns_fp + t.bns_fn + t.bns_tn + rows.length) := by
  intro rows
  induction rows with
  | nil => intro ref t; simp
  | cons row rest ih =>
    intro ref t
    rw [List.foldl_cons]
    refine ⟨?_, ?_⟩
    · rw [(ih ref (stepRow ref t row)).1, (stepRow_sums ref t row).1]
      simp [List.length_cons]
      omega
    · rw [(ih ref (stepRow ref t row)).2, (stepRow_sums ref t row).2]
      simp [List.length_cons]
      omega

/-! ### The fragment walk -/

theorem consDecomp {α : Type} (P : List α → α → Prop) (f : α) (rest : List α) :
    (∃ pre g post, f :: rest = pre ++ g :: post ∧ P pre g) ↔
      P [] f ∨ ∃ pre g post, rest = pre ++ g :: post ∧ P (f :: pre) g := by
  constructor
  · rintro ⟨pre, g, post, heq, hP⟩
    cases pre with
    | nil =>
      rw [List.nil_append] at heq
      cases heq
      exact Or.inl hP
    | cons p pre2 =>
      rw [List.cons_append] at heq
      injection heq with h1 h2
      subst h1
      exact Or.inr ⟨pre2, g, post, h2, hP⟩
  · rintro (h | ⟨pre, g, post, heq, hP⟩)
    · exact ⟨[], f, rest, rfl, h⟩
    · exact ⟨f :: pre, g, post, by rw [heq, List.cons_append], hP⟩

theorem stepFragment_ctx (A : List String) (st : LoopState) (f : Str) :
    (stepFragment A st f).ctx = ctxStep st.ctx f := by
  simp only [stepFragment, ctxStep]
  split <;> rfl

theorem stepFragment_assign_mem (A : List String) (st : LoopState) (f : Str) (a x : String) :
    x ∈ (stepFragment A st f).assign a ↔
      x ∈ st.assign a ∨ (x ∈ extract_section_codes f ∧ a ∈ fragTarget A st.ctx f) := by
  simp only [stepFragment, fragTarget]
  by_cases hc : extract_section_codes f = []
  · rw [if_pos hc]
    simp [hc]
  · rw [if_neg hc]
    by_cases ha :
        a ∈ if match_act_tags f ≠ [] then match_act_tags f
            else if st.ctx ≠ [] then st.ctx else A
    · simp only [ha, if_pos, List.mem_append]
      tauto
    · simp only [ha, if_neg, iff_false, and_true]
      tauto

theorem foldl_stepFragment_mem :
    ∀ (frags : List Str) (A : List String) (st : LoopState) (a x : String),
      x ∈ (frags.foldl (stepFragment A) st).assign a ↔
        x ∈ st.assign a ∨
          ∃ pre f post, frags = pre ++ f :: post ∧ x ∈ extract_section_codes f ∧
            a ∈ fragTarget A (List.foldl ctxStep st.ctx pre) f := by
  intro frags
  induction frags with
  | nil =>
    intro A st a x
    rw [List.foldl_nil]
    constructor
    · exact Or.inl
    · rintro (h | ⟨pre, f, post, heq, _⟩)
      · exact h
      · cases pre <;> simp at heq
  | cons f rest ih =>
    intro A st a x
    rw [List.foldl_cons, ih A (stepFragment A st f) a x, stepFragment_assign_mem,
      consDecomp (fun pre g =>
        x ∈ extract_section_codes g ∧ a ∈ fragTarget A (List.foldl ctxStep st.ctx pre) g)]
    rw [stepFragment_ctx]
    simp only [List.foldl_nil, List.foldl_cons]
    tauto

theorem runFragments_mem (A : List String) (frags : List Str) (a x : String) :
    x ∈ (runFragments A frags).assign a ↔
      ∃ pre f post, frags = pre ++ f :: post ∧ x ∈ extract_section_codes f ∧
        a ∈ fragTarget A (List.foldl ctxStep [] pre) f := by
  rw [runFragments, foldl_stepFragment_mem]
  simp

/-! ### Claim theorems -/

/-- **C2.** For every citation string, the tagger splits it on commas and
walks fragments left to right with a carried act-context set: a code lands
in an act's accumulated set exactly when some fragment contains it and that
act is in the fragment's target — the fragment's own detected acts if any,
else the carried context (the most recent fragment-level match), else every
globally detected act — with union accumulation across fragments; and
tagging the round-trip string "भारतीय दंड संहिता-379, भारतीय दंड संहिता-411"
yields act tags exactly `IPC_1860` and IPC sections exactly `{379, 411}`. -/
theorem c2_fragment_walk :
    (∀ (s : Str) (a x : String),
        x ∈ (runFragments (match_act_tags s) (fragmentsOf s)).assign a ↔
          ∃ pre f post, fragmentsOf s = pre ++ f :: post ∧ x ∈ extract_section_codes f ∧
            a ∈ fragTarget (match_act_tags s) (List.foldl ctxStep [] pre) f) ∧
    (tag_sections_line roundTripInput.data []).act_tags = [IPC_KEY] ∧
    (tag_sections_line roundTripInput.data []).ipc_sections_raw = [r"379", r"411"] ∧
    (tag_sections_line roundTripInput.data []).ipc_sections = [r"379", r"411"] :=
  ⟨fun s a x => runFragments_mem (match_act_tags s) (fragmentsOf s) a x,
    by decide, by decide, by decide⟩

/-- **C3.** Section-code extraction prefers hyphen-attached codes: when at
least one exists the result is exactly that set (sorted, deduplicated);
otherwise a token of the bare scan is kept exactly when its integer value
does not lie in `[1800, 2099]`; and the fallback scan over
"अधिनियम 1860 धारा 302" excludes `1860` but keeps `302`. -/
theorem c3_extract_section_codes :
    (∀ s : Str, ∀ t : String,
        (hyphenScan s ≠ [] → (t ∈ extract_section_codes s ↔ t ∈ hyphenScan s)) ∧
        (hyphenScan s = [] → (t ∈ extract_section_codes s ↔
          t ∈ bareScan s ∧ ∃ n, parseIntPre t = some n ∧ ¬(1800 ≤ n ∧ n ≤ 2099)))) ∧
    (∀ s : Str, pairSorted (extract_section_codes s)) ∧
    hyphenScan yearInput.data = [] ∧
    extract_section_codes yearInput.data = [r"302"] := by
  refine ⟨fun s t => ⟨fun hne => ?_, fun heq => ?_⟩, fun s => ?_, by decide, by decide⟩
  · simp only [extract_section_codes]
    rw [if_pos hne, sd_mem]
  · simp only [extract_section_codes]
    rw [if_neg (by simp [heq]), sd_mem, fallbackKept_mem]
  · simp only [extract_section_codes]
    split
    · exact sd_sorted _
    · exact sd_sorted _

/-- **C5.** Reference validation of extracted IPC-1860 codes: an empty
reference set makes validation the identity, and against a non-empty
reference set a code survives exactly when it came in and its normalized
form is non-empty and a member of the reference set. -/
theorem c5_validate_ipc_sections :
    ∀ (l ref : List String),
      (ref = [] → validate_ipc_sections l ref = l) ∧
      (ref ≠ [] → ∀ c, c ∈ validate_ipc_sections l ref ↔
        c ∈ l ∧ normalize_section_token c ≠ "" ∧ normalize_section_token c ∈ ref) := by
  intro l ref
  constructor
  · intro h
    simp only [validate_ipc_sections]
    rw [if_pos h]
  · intro h c
    simp only [validate_ipc_sections]
    rw [if_neg h, sd_mem, List.mem_filter]
    simp only [decide_eq_true_eq]

/-- **C7.** The metric block emitted by the batch harness never faults:
for every tally it is built, with precision `tp/(tp+fp)`, recall
`tp/(tp+fn)` and F1 `2·tp/(2·tp+fp+fn)`, each `0` exactly when its
denominator is zero. -/
theorem c7_safe_metrics :
    ∀ tp fp fnn tn : Nat, ∃ rep : DetectionReport,
      mkDetection tp fp fnn tn = .ok rep ∧
      rep.tp = tp ∧ rep.fp = fp ∧ rep.fndet = fnn ∧ rep.tn = tn ∧
      (tp + fp ≠ 0 → rep.precision = (tp : ℚ) / ((tp : ℚ) + fp)) ∧
      (tp + fp = 0 → rep.precision = 0) ∧
      (tp + fnn ≠ 0 → rep.recallQ = (tp : ℚ) / ((tp : ℚ) + fnn)) ∧
      (tp + fnn = 0 → rep.recallQ = 0) ∧
      (2 * tp + fp + fnn ≠ 0 → rep.f1 = (2 * (tp : ℚ)) / (2 * (tp : ℚ) + fp + fnn)) ∧
      (2 * tp + fp + fnn = 0 → rep.f1 = 0) := by
  intro tp fp fnn tn
  refine ⟨detectionOf tp fp fnn tn, mkDetection_ok tp fp fnn tn, rfl, rfl, rfl, rfl,
    ?_, ?_, ?_, ?_, ?_, ?_⟩
  · intro h
    simp only [detectionOf]
    rw [if_neg (fun e => h ((natCastAddEqZero tp fp).mp e))]
  · intro h
    simp only [detectionOf]
    rw [if_pos ((natCastAddEqZero tp fp).mpr h)]
  · intro h
    simp only [detectionOf]
    rw [if_neg (fun e => h ((natCastAddEqZero tp fnn).mp e))]
  · intro h
    simp only [detectionOf]
    rw [if_pos ((natCastAddEqZero tp fnn).mpr h)]
  · intro h
    simp only [detectionOf]
    rw [if_neg (fun e => h ((natCastF1EqZero tp fp fnn).mp e))]
  · intro h
    simp only [detectionOf]
    rw [if_pos ((natCastF1EqZero tp fp fnn).mpr h)]

/-- **C9.** The batch harness classifies each record into exactly one
confusion cell per act: in the emitted report `tp + fp + fn + tn` equals the
record count for both the IPC and the BNS matrix. -/
theorem c9_confusion_partition :
    ∀ (rows : List MetaRow) (ref : List String), ∃ rep : ValidationReport,
      validate_ipc_tags rows ref = .ok rep ∧
      rep.total_cases = rows.length ∧
      rep.ipc_detection.tp + rep.ipc_detection.fp + rep.ipc_detection.fndet +
        rep.ipc_detection.tn = rows.length ∧
      rep.bns_detection.tp + rep.bns_detection.fp + rep.bns_detection.fndet +
        rep.bns_detection.tn = rows.length := by
  intro rows ref
  refine ⟨_, validate_ipc_tags_ok rows ref, rfl, ?_, ?_⟩
  · have h := (foldl_stepRow_sums rows ref tally0).1
    simpa [tally0, detectionOf] using h
  · have h := (foldl_stepRow_sums rows ref tally0).2
    simpa [tally0, detectionOf] using h

/-- **C4 counterexample.** The truthy non-string input `1` reaches
`sections_line.lower()` inside `_match_act_tags` and raises
`AttributeError`, so "every empty or non-string input returns an empty tag
set and never raises" fails at the non-string input `1`. -/
theorem c4_counterexample :
    tag_sections_line_py (.vint 1) [] = .error .attributeError ∧
    tag_sections_line_py (.vint 1) [] ≠ .ok emptyTagSet :=
  ⟨rfl, fun h => Except.noConfusion h⟩

/-- **C4 (amended).** Every falsy input (`None`, the empty string, zero, an
empty list, `False`) makes `tag_sections_line` return a tag set with every
field empty, without raising; a truthy non-string input instead raises
`AttributeError`. -/
theorem c4_falsy_empty :
    (∀ (v : PyVal) (ref : List String),
        pyTruthy v = false → tag_sections_line_py v ref = .ok emptyTagSet) ∧
    (∀ (v : PyVal) (ref : List String),
        pyTruthy v = true → (∀ s, v ≠ PyVal.vstr s) →
          tag_sections_line_py v ref = .error .attributeError) := by
  constructor
  · intro v ref h
    simp [tag_sections_line_py, h]
  · intro v ref h hns
    cases v with
    | vstr s => exact absurd rfl (hns s)
    | vnone => simp [pyTruthy] at h
    | vint n => simp [tag_sections_line_py, h]
    | vlist k => simp [tag_sections_line_py, h]
    | vbool b => simp [tag_sections_line_py, h]

/-! ### Short-form hits against the full alias table -/

theorem tag_shortform_hits (s : Str) (ref : List String) (h : ¬s = []) :
    (tag_sections_line s ref).shortform_hits =
      sortedDedup ((SHORTFORM_PATTERNS.filter
        (fun ap => ap.2.any (fun p => reSearch p (lowerStr s)))).map Prod.fst) := by
  simp only [tag_sections_line]
  rw [if_neg h]

theorem tag_act_tags (s : Str) (ref : List String) (h : ¬s = []) :
    (tag_sections_line s ref).act_tags = sortedDedup (match_act_tags s) := by
  simp only [tag_sections_line]
  rw [if_neg h]

theorem shortform_subset_alias :
    ∀ e ∈ SHORTFORM_PATTERNS,
      ∃ e2 ∈ ACT_ALIAS_PATTERNS, e2.1 = e.1 ∧ ∀ p ∈ e.2, p ∈ e2.2 := by
  decide

/-- **C10.** `shortform_hits` is always a subset of `act_tags`: each
short-form pattern is one of the same act's alias patterns, and both passes
search the same string case-insensitively. -/
theorem c10_shortform_subset :
    (∀ (s : Str) (ref : List String) (a : String),
        a ∈ (tag_sections_line s ref).shortform_hits →
          a ∈ (tag_sections_line s ref).act_tags) ∧
    (∀ e ∈ SHORTFORM_PATTERNS,
      ∃ e2 ∈ ACT_ALIAS_PATTERNS, e2.1 = e.1 ∧ ∀ p ∈ e.2, p ∈ e2.2) := by
  refine ⟨?_, shortform_subset_alias⟩
  intro s ref a ha
  by_cases hs : s = []
  · rw [hs] at ha
    simp [tag_sections_line, emptyTagSet] at ha
  · rw [tag_shortform_hits s ref hs] at ha
    rw [tag_act_tags s ref hs, sd_mem]
    rw [sd_mem] at ha
    obtain ⟨e, he, rfl⟩ := List.mem_map.mp ha
    obtain ⟨hmemShort, hcond⟩ := List.mem_filter.mp he
    obtain ⟨p, hp, hsearch⟩ := List.any_eq_true.mp hcond
    obtain ⟨e2, hmemAlias, heq, hsub⟩ := shortform_subset_alias e hmemShort
    unfold match_act_tags
    refine List.mem_map.mpr ⟨e2, List.mem_filter.mpr ⟨hmemAlias, ?_⟩, heq⟩
    exact List.any_eq_true.mpr ⟨p, hsub p hp, hsearch⟩

/-! ### Character-level facts for the token normalizer -/

theorem dropWhile_all_false {p : Char → Bool} :
    ∀ l : Str, (∀ c ∈ l, p c = false) → l.dropWhile p = l
  | [], _ => rfl
  | c :: rest, h => by
      rw [List.dropWhile_cons, h c (List.mem_cons_self c rest)]
      simp

theorem trimStr_all {l : Str} (h : ∀ c ∈ l, isWsChar c = false) : trimStr l = l := by
  unfold trimStr
  rw [dropWhile_all_false l h,
    dropWhile_all_false l.reverse (fun c hc => h c (List.mem_reverse.mp hc)),
    List.reverse_reverse]

theorem toNat_ofNat_valid {n : Nat} (h : n.isValidChar) : (Char.ofNat n).toNat = n := by
  simp only [Char.ofNat, h, dif_pos, Char.ofNatAux, Char.toNat, UInt32.toNat]
  simp

theorem toUpper_not_lower (d : Char) :
    ¬(97 ≤ (Char.toUpper d).toNat ∧ (Char.toUpper d).toNat ≤ 122) := by
  unfold Char.toUpper
  by_cases h : d.toNat ≥ 97 ∧ d.toNat ≤ 122
  · rw [if_pos h]
    have hv : (Char.ofNat (d.toNat - 32)).toNat = d.toNat - 32 :=
      toNat_ofNat_valid (Or.inl (by omega))
    omega
  · rw [if_neg h]
    exact fun hc => h ⟨hc.1, hc.2⟩

theorem toUpper_fix {d : Char} (h : ¬(97 ≤ d.toNat ∧ d.toNat ≤ 122)) : Char.toUpper d = d := by
  unfold Char.toUpper
  rw [if_neg (fun hc => h ⟨hc.1, hc.2⟩)]

theorem isDigitChar_toNat {c : Char} (h : isDigitChar c = true) :
    48 ≤ c.toNat ∧ c.toNat ≤ 57 := by
  simpa only [isDigitChar, Bool.and_eq_true, decide_eq_true_eq] using h

theorem isAsciiLetter_toNat {c : Char} (h : isAsciiLetter c = true) :
    (65 ≤ c.toNat ∧ c.toNat ≤ 90) ∨ (97 ≤ c.toNat ∧ c.toNat ≤ 122) := by
  simpa only [isAsciiLetter, Bool.or_eq_true, Bool.and_eq_true, decide_eq_true_eq] using h

theorem notWs_of_ge48 {c : Char} (h : 48 ≤ c.toNat) : isWsChar c = false := by
  simp only [isWsChar, Char.isWhitespace, Bool.or_eq_false_iff, decide_eq_false_iff_not]
  refine ⟨⟨⟨?_, ?_⟩, ?_⟩, ?_⟩ <;> (intro e; subst e; exact absurd h (by decide))

theorem shape_chars {l : Str} (h : sectionTokenShape l = true) :
    ∀ c ∈ l, isDigitChar c = true ∨ isAsciiLetter c = true := by
  intro c hc
  rw [← List.takeWhile_append_dropWhile (p := isDigitChar) (l := l)] at hc
  rcases List.mem_append.mp hc with hc2 | hc2
  · exact Or.inl (List.mem_takeWhile_imp hc2)
  · unfold sectionTokenShape at h
    cases hdrop : l.dropWhile isDigitChar with
    | nil => rw [hdrop] at hc2; cases hc2
    | cons d rest =>
      cases rest with
      | nil =>
        rw [hdrop] at hc2 h
        rcases List.mem_singleton.mp hc2 with rfl
        simp only [Bool.and_eq_true] at h
        exact Or.inr h.2
      | cons d2 rest2 =>
        rw [hdrop] at h
        simp at h

theorem mem_cleanup_toUpper {l : Str} {c : Char} (hc : c ∈ cleanupToken l) :
    ∃ d, c = Char.toUpper d := by
  unfold cleanupToken at hc
  have hc2 := List.mem_of_mem_filter hc
  obtain ⟨d, _, rfl⟩ := List.mem_map.mp hc2
  exact ⟨d, rfl⟩

theorem map_id_of_fix {f : Char → Char} : ∀ l : Str, (∀ c ∈ l, f c = c) → l.map f = l
  | [], _ => rfl
  | c :: rest, h => by
      rw [List.map_cons, h c (List.mem_cons_self c rest),
        map_id_of_fix rest fun d hd => h d (List.mem_cons_of_mem c hd)]

theorem cleanup_fix {l : Str}
    (hws : ∀ c ∈ l, isWsChar c = false)
    (hup : ∀ c ∈ l, Char.toUpper c = c)
    (hkeep : ∀ c ∈ l, ¬(c = ' ' ∨ c = '(' ∨ c = ')')) :
    cleanupToken l = l := by
  unfold cleanupToken
  rw [trimStr_all hws, map_id_of_fix l hup]
  exact List.filter_eq_self.mpr fun c hcmem => by simp [hkeep c hcmem]

theorem shape_fixed {y : Str} (hy : sectionTokenShape y = true)
    (hnl : ∀ c ∈ y, ¬(97 ≤ c.toNat ∧ c.toNat ≤ 122)) : cleanupToken y = y := by
  have hchars := shape_chars hy
  apply cleanup_fix
  · intro c hc
    rcases hchars c hc with hd | hl
    · exact notWs_of_ge48 (isDigitChar_toNat hd).1
    · rcases isAsciiLetter_toNat hl with ⟨h1, _⟩ | hlow
      · exact notWs_of_ge48 (by omega)
      · exact absurd hlow (hnl c hc)
  · intro c hc
    exact toUpper_fix (hnl c hc)
  · intro c hc
    have hge : 48 ≤ c.toNat := by
      rcases hchars c hc with hd | hl
      · exact (isDigitChar_toNat hd).1
      · rcases isAsciiLetter_toNat hl with ⟨h1, _⟩ | ⟨h1, _⟩ <;> omega
    rintro (rfl | rfl | rfl) <;> exact absurd hge (by decide)

/-- **C6.** `normalize_section_token` is total and deterministic by
construction; it returns the empty string whenever the cleaned-up token
(whitespace stripped, upper-cased, spaces and parentheses removed) does not
have the shape of 1–4 digits with an optional single letter; and it is
idempotent. -/
theorem c6_normalize_idempotent :
    (∀ t : String, sectionTokenShape (cleanupToken t.data) = false →
        normalize_section_token t = "") ∧
    (∀ t : String,
        normalize_section_token (normalize_section_token t) = normalize_section_token t) := by
  constructor
  · intro t h
    simp only [normalize_section_token]
    rw [if_neg (by simp [h])]
  · intro t
    by_cases h : sectionTokenShape (cleanupToken t.data) = true
    · have h1 : normalize_section_token t = String.mk (cleanupToken t.data) := by
        simp only [normalize_section_token]
        rw [if_pos h]
      rw [h1]
      have hnl : ∀ c ∈ cleanupToken t.data, ¬(97 ≤ c.toNat ∧ c.toNat ≤ 122) := by
        intro c hc
        obtain ⟨d, rfl⟩ := mem_cleanup_toUpper hc
        exact toUpper_not_lower d
      have hfix : cleanupToken (String.mk (cleanupToken t.data)).data = cleanupToken t.data :=
        shape_fixed h hnl
      simp only [normalize_section_token]
      rw [hfix, if_pos h]
    · have h0 : normalize_section_token t = "" := by
        simp only [normalize_section_token]
        rw [if_neg h]
      rw [h0]
      rfl

/-- **C8 counterexample.** The claim says the fallback returns the first
non-empty line with *leading* bullet/dash/asterisk/tab characters stripped,
but `line.strip(" -*\t")` strips both ends: on the label-free response
"item -\n" the extractor returns "item", while leading-only stripping of
the first line keeps "item -". -/
theorem c8_counterexample :
    extract_predicted_act_section_text (.vstr predTrailInput) = r"item" ∧
    String.mk (stripBulletsLeadingSpec (r"item -").data) = r"item -" ∧
    (r"item" : String) ≠ r"item -" :=
  ⟨by decide, by decide, by decide⟩

/-- **C8 (amended).** The prediction extractor: a labelled
`Predicted_Act_Section:` line yields its trimmed value; with no labelled
line, the first line whose form after stripping bullet/dash/asterisk/tab
characters from both ends is non-empty yields that stripped form, and
all-blank responses yield `""`; non-string input yields `""`; it is a total
function (never raises); and the spec's example response extracts to
exactly "IPC-379, IPC-411". -/
theorem c8_extract_predicted :
    (∀ v : PyVal, (∀ s, v ≠ PyVal.vstr s) → extract_predicted_act_section_text v = "") ∧
    (extract_predicted_act_section_text (.vstr "") = "") ∧
    (∀ (s : String) (cap : Str), predSearchAux s.data = some cap →
        extract_predicted_act_section_text (.vstr s) = String.mk (trimStr cap)) ∧
    (∀ s : String, predSearchAux s.data = none →
        (∀ l ∈ splitLines s.data, stripBullets l = []) →
        extract_predicted_act_section_text (.vstr s) = "") ∧
    (∀ (s : String) (pre : List Str) (l : Str) (post : List Str),
        predSearchAux s.data = none → splitLines s.data = pre ++ l :: post →
        (∀ l2 ∈ pre, stripBullets l2 = []) → stripBullets l ≠ [] →
        extract_predicted_act_section_text (.vstr s) = String.mk (stripBullets l)) ∧
    extract_predicted_act_section_text (.vstr predInput) = r"IPC-379, IPC-411" := by
  refine ⟨?_, by decide, ?_, ?_, ?_, by decide⟩
  · intro v hv
    cases v with
    | vstr s => exact absurd rfl (hv s)
    | vnone => rfl
    | vint n => rfl
    | vlist k => rfl
    | vbool b => rfl
  · intro s cap h
    simp only [extract_predicted_act_section_text, extract_predicted_text_str]
    rw [h]
  · intro s h hall
    simp only [extract_predicted_act_section_text, extract_predicted_text_str]
    rw [h, firstCleanedLine_all_empty _ hall]
  · intro s pre l post h hsplit hpre hl
    simp only [extract_predicted_act_section_text, extract_predicted_text_str]
    rw [h, hsplit, firstCleanedLine_found pre l post hpre hl]

/-! ### The accuracy evaluator -/

theorem sortedEqIffSameSet {a b : List String} (ha : pairSorted a) (hb : pairSorted b) :
    a = b ↔ sameSet a b := by
  constructor
  · rintro rfl
    exact fun x => Iff.rfl
  · exact sorted_canonical a b ha hb

theorem expected_all_sections_eq (row : ContextRow) :
    sortedDedup (get_expected_from_context row).all_sections =
      (get_expected_from_context row).all_sections := by
  simp only [get_expected_from_context]
  exact sd_idem _

theorem expected_act_tags_eq (row : ContextRow) :
    sortedDedup (get_expected_from_context row).act_tags =
      (get_expected_from_context row).act_tags := by
  simp only [get_expected_from_context]
  exact sd_idem _

theorem expected_all_sections_sorted (row : ContextRow) :
    pairSorted (get_expected_from_context row).all_sections := by
  simp only [get_expected_from_context]
  exact sd_sorted _

theorem expected_act_tags_sorted (row : ContextRow) :
    pairSorted (get_expected_from_context row).act_tags := by
  simp only [get_expected_from_context]
  exact sd_sorted _

theorem eval_expected (p : String) (row : ContextRow) :
    (evaluate_prediction p row).expected = get_expected_from_context row := rfl

theorem eval_pred_sections (p : String) (row : ContextRow) :
    (evaluate_prediction p row).predicted_all_sections =
      sortedDedup (tag_sections_line p.data []).all_sections := rfl

theorem eval_pred_tags (p : String) (row : ContextRow) :
    (evaluate_prediction p row).predicted_act_tags =
      sortedDedup (tag_sections_line p.data []).act_tags := rfl

theorem eval_section_acc (p : String) (row : ContextRow) :
    (evaluate_prediction p row).section_accuracy =
      if sortedDedup (get_expected_from_context row).all_sections ≠ [] then
        some (if sortedDedup (tag_sections_line p.data []).all_sections =
            sortedDedup (get_expected_from_context row).all_sections then 1 else 0)
      else none := rfl

theorem eval_act_acc (p : String) (row : ContextRow) :
    (evaluate_prediction p row).act_tag_accuracy =
      if sortedDedup (get_expected_from_context row).act_tags ≠ [] then
        some (if sortedDedup (tag_sections_line p.data []).act_tags =
            sortedDedup (get_expected_from_context row).act_tags then 1 else 0)
      else none := rfl

theorem eval_accuracy (p : String) (row : ContextRow) :
    (evaluate_prediction p row).accuracy =
      (match (evaluate_prediction p row).section_accuracy with
       | some v => v
       | none =>
           match (evaluate_prediction p row).act_tag_accuracy with
           | some v => v
           | none => 0) := rfl

theorem optAccSpec (P B : List String) (hP : pairSorted P) (hB : pairSorted B) :
    (((if B ≠ [] then some (if P = B then 1 else 0) else none) : Option Nat) = none ↔ B = []) ∧
    ((if B ≠ [] then some (if P = B then 1 else 0) else none) = some 1 ↔
      B ≠ [] ∧ sameSet P B) ∧
    ((if B ≠ [] then some (if P = B then 1 else 0) else none) = some 0 ↔
      B ≠ [] ∧ ¬sameSet P B) := by
  by_cases hBe : B = []
  · subst hBe
    simp
  · have hiff : P = B ↔ sameSet P B := sortedEqIffSameSet hP hB
    by_cases hPB : P = B
    · subst hPB
      have hss : sameSet P P := fun x => Iff.rfl
      simp [hBe, hss]
    · have hns : ¬sameSet P B := fun hs => hPB (hiff.mpr hs)
      simp [hBe, hPB, hns]

/-- **C1.** `evaluate_prediction`: `section_accuracy` is non-null exactly
when the expected section set is non-empty, and then it is 1 exactly on
exact set equality of predicted and expected sections, 0 on any mismatch
(including partial overlap); the same holds for `act_tag_accuracy` over the
act-tag sets; and the overall `accuracy` equals `section_accuracy` when
computed, else `act_tag_accuracy` when computed, else 0. -/
theorem c1_evaluate_prediction :
    ∀ (p : String) (row : ContextRow),
      ((evaluate_prediction p row).section_accuracy = none ↔
        (evaluate_prediction p row).expected.all_sections = []) ∧
      ((evaluate_prediction p row).section_accuracy = some 1 ↔
        (evaluate_prediction p row).expected.all_sections ≠ [] ∧
        sameSet (evaluate_prediction p row).predicted_all_sections
          (evaluate_prediction p row).expected.all_sections) ∧
      ((evaluate_prediction p row).section_accuracy = some 0 ↔
        (evaluate_prediction p row).expected.all_sections ≠ [] ∧
        ¬sameSet (evaluate_prediction p row).predicted_all_sections
          (evaluate_prediction p row).expected.all_sections) ∧
      ((evaluate_prediction p row).act_tag_accuracy = none ↔
        (evaluate_prediction p row).expected.act_tags = []) ∧
      ((evaluate_prediction p row).act_tag_accuracy = some 1 ↔
        (evaluate_prediction p row).expected.act_tags ≠ [] ∧
        sameSet (evaluate_prediction p row).predicted_act_tags
          (evaluate_prediction p row).expected.act_tags) ∧
      ((evaluate_prediction p row).act_tag_accuracy = some 0 ↔
        (evaluate_prediction p row).expected.act_tags ≠ [] ∧
        ¬sameSet (evaluate_prediction p row).predicted_act_tags
          (evaluate_prediction p row).expected.act_tags) ∧
      (∀ v, (evaluate_prediction p row).section_accuracy = some v →
        (evaluate_prediction p row).accuracy = v) ∧
      ((evaluate_prediction p row).section_accuracy = none →
        ∀ v, (evaluate_prediction p row).act_tag_accuracy = some v →
          (evaluate_prediction p row).accuracy = v) ∧
      ((evaluate_prediction p row).section_accuracy = none →
        (evaluate_prediction p row).act_tag_accuracy = none →
        (evaluate_prediction p row).accuracy = 0) := by
  intro p row
  have hsec := optAccSpec (sortedDedup (tag_sections_line p.data []).all_sections)
    ((get_expected_from_context row).all_sections) (sd_sorted _)
    (expected_all_sections_sorted row)
  have hact := optAccSpec (sortedDedup (tag_sections_line p.data []).act_tags)
    ((get_expected_from_context row).act_tags) (sd_sorted _) (expected_act_tags_sorted row)
  have hSrw : (evaluate_prediction p row).section_accuracy =
      if (get_expected_from_context row).all_sections ≠ [] then
        some (if sortedDedup (tag_sections_line p.data []).all_sections =
            (get_expected_from_context row).all_sections then 1 else 0)
      else none := by
    rw [eval_section_acc, expected_all_sections_eq]
  have hArw : (evaluate_prediction p row).act_tag_accuracy =
      if (get_expected_from_context row).act_tags ≠ [] then
        some (if sortedDedup (tag_sections_line p.data []).act_tags =
            (get_expected_from_context row).act_tags then 1 else 0)
      else none := by
    rw [eval_act_acc, expected_act_tags_eq]
  refine ⟨?_, ?_, ?_, ?_, ?_, ?_, ?_, ?_, ?_⟩
  · rw [hSrw, eval_expected]
    exact hsec.1
  · rw [hSrw, eval_expected, eval_pred_sections]
    exact hsec.2.1
  · rw [hSrw, eval_expected, eval_pred_sections]
    exact hsec.2.2
  · rw [hArw, eval_expected]
    exact hact.1
  · rw [hArw, eval_expected, eval_pred_tags]
    exact hact.2.1
  · rw [hArw, eval_expected, eval_pred_tags]
    exact hact.2.2
  · intro v hv
    rw [eval_accuracy, hv]
  · intro h v hv
    rw [eval_accuracy, h, hv]
  · intro h h2
    rw [eval_accuracy, h, h2]

end FirRag
